import Mathlib

/-!
Verification of the `AudioData` time-indexed audio buffer from
`src/app/modules/audio/AudioData.py` (repository `hyuncat/violin-CV`).

The embedding models the Python/numpy semantics the source relies on:
`int()` truncation toward zero, Python slice-index resolution (negative
indices wrap from the end, out-of-range indices clamp), numpy slice
assignment (which either fully succeeds or raises `ValueError` without
mutating), and `np.resize` (which tiles the old content cyclically into
the new array, zero-filling only when the old array is empty).

Sample values are modelled as rationals: the code only stores and copies
samples, never computes with them, so the carrier type is irrelevant and
copies are bit-exact.  Times are modelled as rationals, and `int()` as
exact truncation; this is faithful wherever the float arithmetic in the
source is exact, which covers all concrete inputs used below.
-/

namespace ViolinCV

/-- Python `int()` applied to a number: truncation toward zero
(floor for nonnegative arguments, ceiling for negative ones). -/
def pyInt (q : ℚ) : ℤ :=
  if 0 ≤ q then ⌊q⌋ else ⌈q⌉

/-- Resolution of one Python slice endpoint against a sequence of length
`n`: a negative index counts from the end (`i + n`, floored at `0`), a
nonnegative index is clamped to `n`. -/
def sliceIndex (n : ℕ) (i : ℤ) : ℕ :=
  if i < 0 then (i + n).toNat else min i.toNat n

/-- Python/numpy basic slice `xs[a:b]` (step 1): the elements between the
resolved endpoints, empty when the resolved stop does not exceed the
resolved start.  Never raises. -/
def pySlice (xs : List ℚ) (a b : ℤ) : List ℚ :=
  (xs.take (sliceIndex xs.length b)).drop (sliceIndex xs.length a)

/-- numpy slice assignment `xs[a:b] = buf`.  Succeeds elementwise when
`buf` has exactly the length of the resolved slice; a length-one `buf`
broadcasts across the slice; any other mismatch raises `ValueError`
(`none`) and leaves the array unmutated. -/
def pySliceAssign (xs : List ℚ) (a b : ℤ) (buf : List ℚ) : Option (List ℚ) :=
  let lo := sliceIndex xs.length a
  let hi := sliceIndex xs.length b
  let sl := hi - lo
  if buf.length = sl then
    some (xs.take lo ++ buf ++ xs.drop (lo + sl))
  else
    match buf with
    | [v] => some (xs.take lo ++ List.replicate sl v ++ xs.drop (lo + sl))
    | _ => none

/-- numpy `np.resize xs n`: the old content repeated cyclically to fill
the new length (truncating when `n` is smaller); an empty source yields
zeros. -/
def npResize (xs : List ℚ) (n : ℕ) : List ℚ :=
  if xs.length = 0 then List.replicate n 0
  else (List.range n).map (fun i => xs.getD (i % xs.length) 0)

/-- The observable state of an `AudioData` object: `capacity` (a Python
int) and `data` (the numpy float32 array of samples). -/
structure AudioState where
  capacity : ℤ
  data : List ℚ
  deriving DecidableEq, Repr

/-- Result of `__init__`: the source's no-MIDI branch sets `capacity`
without ever creating `self.data`, so `data` is an `Option`. -/
structure InitState where
  capacity : ℤ
  data : Option (List ℚ)
  deriving DecidableEq, Repr

/-- `AudioData.__init__` (lines 9-32): with a MIDI file, capacity is
`int(midi_length * SAMPLE_RATE)` and `data` is that many zeros; without
one, capacity is `60 * SAMPLE_RATE` and `data` is never assigned.  When
an audio file path is given, `load_data` then replaces both (the decoded
samples are the external loader's output, passed in here). -/
def audioDataInit (sampleRate : ℕ) (midiLength : Option ℚ)
    (audioFile : Option (List ℚ)) : InitState :=
  let base : InitState :=
    match midiLength with
    | some len =>
        { capacity := pyInt (len * sampleRate),
          data := some (List.replicate (pyInt (len * sampleRate)).toNat 0) }
    | none =>
        { capacity := 60 * sampleRate, data := none }
  match audioFile with
  | some audio => { capacity := audio.length, data := some audio }
  | none => base

/-- `AudioData.load_data` (lines 34-45): replaces `data` with the decoded
samples and sets `capacity` to their length, irrespective of the prior
state. -/
def loadData (_st : AudioState) (audio : List ℚ) : AudioState :=
  { capacity := audio.length, data := audio }

/-- `AudioData.write_data` (lines 47-64).  Computes
`start_index = int(start_time * sample_rate)` and
`end_index = start_index + len(buffer)`; if `end_index > capacity` the
capacity is doubled ONCE and `data` is rebuilt with `np.resize`; then the
chunk is slice-assigned.  Returns the state paired with `true` when the
assignment raised `ValueError` — the Python object keeps the doubled
capacity and resized array in that case, since the exception fires after
the resize. -/
def writeData (sampleRate : ℕ) (st : AudioState) (buffer : List ℚ)
    (startTime : ℚ) : AudioState × Bool :=
  let startIndex := pyInt (startTime * sampleRate)
  let endIndex := startIndex + buffer.length
  let grown : AudioState :=
    if st.capacity < endIndex then
      { capacity := 2 * st.capacity, data := npResize st.data (2 * st.capacity).toNat }
    else st
  match pySliceAssign grown.data startIndex endIndex buffer with
  | some d => ({ grown with data := d }, false)
  | none => (grown, true)

/-- `AudioData.read_data` (lines 66-79): slices `data` between
`int(start_time * sample_rate)` and `int(end_time * sample_rate)`; numpy
slicing clamps, never raises. -/
def readData (sampleRate : ℕ) (st : AudioState) (startTime endTime : ℚ) : List ℚ :=
  pySlice st.data (pyInt (startTime * sampleRate)) (pyInt (endTime * sampleRate))

/-!
A heap-level refinement of the same code, needed to settle aliasing
questions: numpy basic slicing (`self.data[start_index:end_index]` in
`read_data`) returns a VIEW into the backing array, while `np.resize`
allocates a fresh array and rebinds `self.data`.  The heap is the list of
arrays ever allocated; a view records which array it aliases and its
resolved bounds. -/

/-- A numpy basic-slice view: the heap index of the array it aliases and
the slice bounds, resolved against the array's length at slicing time. -/
structure NpView where
  ref : ℕ
  lo : ℕ
  hi : ℕ
  deriving DecidableEq, Repr

/-- The heap-level state of an `AudioData` object: every array allocated
so far, the index of the one `self.data` currently names, and
`capacity`. -/
structure HeapState where
  arrays : List (List ℚ)
  dataRef : ℕ
  capacity : ℤ
  deriving DecidableEq, Repr

/-- The contents of the array `self.data` currently names. -/
def HeapState.data (h : HeapState) : List ℚ :=
  h.arrays.getD h.dataRef []

/-- The sequence a previously obtained view denotes now: the slice of the
CURRENT contents of the array it aliases. -/
def observeView (h : HeapState) (v : NpView) : List ℚ :=
  ((h.arrays.getD v.ref []).take v.hi).drop v.lo

/-- `read_data` at heap level: numpy basic slicing resolves the bounds
against the current array and returns a view of it — no copy is made. -/
def readDataView (sampleRate : ℕ) (h : HeapState) (startTime endTime : ℚ) : NpView :=
  { ref := h.dataRef,
    lo := sliceIndex h.data.length (pyInt (startTime * sampleRate)),
    hi := sliceIndex h.data.length (pyInt (endTime * sampleRate)) }

/-- `write_data` at heap level: a growing write allocates a fresh array
with `np.resize` and rebinds `self.data` to it; the slice assignment then
mutates the bound array in place. -/
def writeDataHeap (sampleRate : ℕ) (h : HeapState) (buffer : List ℚ)
    (startTime : ℚ) : HeapState × Bool :=
  let startIndex := pyInt (startTime * sampleRate)
  let endIndex := startIndex + buffer.length
  let grown : HeapState :=
    if h.capacity < endIndex then
      { arrays := h.arrays ++ [npResize h.data (2 * h.capacity).toNat],
        dataRef := h.arrays.length,
        capacity := 2 * h.capacity }
    else h
  match pySliceAssign grown.data startIndex endIndex buffer with
  | some d => ({ grown with arrays := grown.arrays.set grown.dataRef d }, false)
  | none => (grown, true)

/-! Helper lemmas about the Python/numpy primitives. -/

/-- On nonnegative arguments Python `int()` is the floor. -/
theorem pyInt_of_nonneg {q : ℚ} (h : 0 ≤ q) : pyInt q = ⌊q⌋ :=
  if_pos h

/-- Python `int()` of a nonnegative number is nonnegative. -/
theorem pyInt_nonneg {q : ℚ} (h : 0 ≤ q) : 0 ≤ pyInt q := by
  rw [pyInt_of_nonneg h]
  exact Int.floor_nonneg.mpr h

/-- A nonnegative slice endpoint resolves by clamping to the length. -/
theorem sliceIndex_of_nonneg {n : ℕ} {i : ℤ} (h : 0 ≤ i) :
    sliceIndex n i = min i.toNat n := by
  simp [sliceIndex, not_lt.mpr h]

/-- A nonnegative in-range slice endpoint resolves to itself. -/
theorem sliceIndex_of_nonneg_le {n : ℕ} {i : ℤ} (h : 0 ≤ i) (hle : i.toNat ≤ n) :
    sliceIndex n i = i.toNat := by
  rw [sliceIndex_of_nonneg h]
  exact Nat.min_eq_left hle

/-- A negative slice endpoint resolves from the end of the sequence. -/
theorem sliceIndex_of_neg {n : ℕ} {i : ℤ} (h : i < 0) :
    sliceIndex n i = (i + n).toNat := by
  simp [sliceIndex, h]

/-- `np.resize` always produces exactly the requested length. -/
theorem npResize_length (xs : List ℚ) (n : ℕ) : (npResize xs n).length = n := by
  by_cases h : xs.length = 0 <;> simp [npResize, h]

/-- Each cell of a `np.resize` of a nonempty array holds the old content
tiled cyclically. -/
theorem npResize_getD (xs : List ℚ) (n i : ℕ) (hx : xs.length ≠ 0) (hi : i < n) :
    (npResize xs n).getD i 0 = xs.getD (i % xs.length) 0 := by
  simp only [npResize, if_neg hx, List.getD_eq_getElem?_getD, List.getElem?_map,
    List.getElem?_range hi, Option.map_some]
  rfl

/-- `np.resize` to a larger size preserves every old cell at its index. -/
theorem npResize_getD_of_lt (xs : List ℚ) (n i : ℕ) (hi : i < xs.length) (hn : i < n) :
    (npResize xs n).getD i 0 = xs.getD i 0 := by
  rw [npResize_getD xs n i (by omega) hn, Nat.mod_eq_of_lt hi]

/-- numpy slice assignment with a nonnegative start and an end index
`start + len(buf)` that fits in the array: the assignment succeeds and
splices the chunk in at the resolved start. -/
theorem pySliceAssign_exact (xs buf : List ℚ) (a : ℤ) (ha : 0 ≤ a)
    (hfit : a.toNat + buf.length ≤ xs.length) :
    pySliceAssign xs a (a + buf.length) buf =
      some (xs.take a.toNat ++ buf ++ xs.drop (a.toNat + buf.length)) := by
  have hb : (0:ℤ) ≤ a + buf.length := by positivity
  have htn : (a + (buf.length:ℤ)).toNat = a.toNat + buf.length := by omega
  have hlo : sliceIndex xs.length a = a.toNat :=
    sliceIndex_of_nonneg_le ha (by omega)
  have hhi : sliceIndex xs.length (a + buf.length) = a.toNat + buf.length := by
    rw [sliceIndex_of_nonneg_le hb (by omega), htn]
  simp only [pySliceAssign, hlo, hhi, Nat.add_sub_cancel_left]
  simp

/-- Splicing a chunk into a list at `[lo, lo + len(buf))` preserves the
length when the chunk fits. -/
theorem sliceWrite_length (xs buf : List ℚ) (lo : ℕ)
    (hfit : lo + buf.length ≤ xs.length) :
    (xs.take lo ++ buf ++ xs.drop (lo + buf.length)).length = xs.length := by
  simp only [List.length_append, List.length_take, List.length_drop]
  omega

/-- Splicing a chunk into a list leaves every cell outside the written
range unchanged. -/
theorem sliceWrite_getD_outside (xs buf : List ℚ) (lo i : ℕ)
    (hfit : lo + buf.length ≤ xs.length)
    (hout : i < lo ∨ lo + buf.length ≤ i) :
    (xs.take lo ++ buf ++ xs.drop (lo + buf.length)).getD i 0 = xs.getD i 0 := by
  have hlo : (xs.take lo).length = lo := by
    rw [List.length_take]; omega
  rw [List.getD_eq_getElem?_getD, List.getD_eq_getElem?_getD, List.append_assoc]
  rcases hout with hlt | hge
  · rw [List.getElem?_append, if_pos (by rw [hlo]; exact hlt),
      List.getElem?_take, if_pos hlt]
  · have h1 : (List.take lo xs).length ≤ i := by rw [hlo]; omega
    rw [List.getElem?_append_right h1, hlo]
    have h2 : buf.length ≤ i - lo := by omega
    rw [List.getElem?_append_right h2, List.getElem?_drop]
    have h3 : lo + buf.length + (i - lo - buf.length) = i := by omega
    rw [h3]

/-- Reading back exactly the spliced range recovers the chunk. -/
theorem sliceWrite_extract (xs buf : List ℚ) (lo : ℕ)
    (hfit : lo + buf.length ≤ xs.length) :
    ((xs.take lo ++ buf ++ xs.drop (lo + buf.length)).take (lo + buf.length)).drop lo
      = buf := by
  have hlo : (xs.take lo).length = lo := by
    rw [List.length_take]; omega
  rw [List.drop_take, Nat.add_sub_cancel_left, List.append_assoc,
    List.drop_left' hlo, List.take_left' rfl]

/-- A non-growing write: when `end_index ≤ capacity` (under the length
invariant, with a nonnegative start index), `write_data` keeps the
capacity, raises nothing, and splices the chunk in at `start_index`. -/
theorem writeData_no_resize (r : ℕ) (st : AudioState) (buf : List ℚ) (t : ℚ)
    (hinv : st.data.length = st.capacity.toNat)
    (hs : 0 ≤ pyInt (t * r))
    (hfit : pyInt (t * r) + buf.length ≤ st.capacity) :
    writeData r st buf t =
      ({ capacity := st.capacity,
         data := st.data.take (pyInt (t * r)).toNat ++ buf ++
           st.data.drop ((pyInt (t * r)).toNat + buf.length) }, false) := by
  have hfit' : (pyInt (t * r)).toNat + buf.length ≤ st.data.length := by
    rw [hinv]; omega
  have hnores : ¬ st.capacity < pyInt (t * r) + buf.length := not_lt.mpr hfit
  simp only [writeData, hnores, if_false,
    pySliceAssign_exact st.data buf (pyInt (t * r)) hs hfit']

/-- A growing write that the single doubling covers: when
`capacity < end_index ≤ 2 * capacity`, `write_data` doubles the capacity
once, rebuilds the storage with `np.resize`, raises nothing, and splices
the chunk in at `start_index`. -/
theorem writeData_resize (r : ℕ) (st : AudioState) (buf : List ℚ) (t : ℚ)
    (hs : 0 ≤ pyInt (t * r))
    (hgrow : st.capacity < pyInt (t * r) + buf.length)
    (hfit : pyInt (t * r) + buf.length ≤ 2 * st.capacity) :
    writeData r st buf t =
      ({ capacity := 2 * st.capacity,
         data := (npResize st.data (2 * st.capacity).toNat).take (pyInt (t * r)).toNat
           ++ buf ++ (npResize st.data (2 * st.capacity).toNat).drop
             ((pyInt (t * r)).toNat + buf.length) }, false) := by
  have hfit' : (pyInt (t * r)).toNat + buf.length
      ≤ (npResize st.data (2 * st.capacity).toNat).length := by
    rw [npResize_length]; omega
  simp only [writeData, if_pos hgrow,
    pySliceAssign_exact (npResize st.data (2 * st.capacity).toNat) buf
      (pyInt (t * r)) hs hfit']

/-- numpy slice assignment with a negative start whose whole range lies
before the end of the array: Python wrap-around semantics silently write
the chunk at `start + len(xs)`. -/
theorem pySliceAssign_neg (xs buf : List ℚ) (a : ℤ) (ha : a < 0)
    (hab : a + buf.length < 0) (hlo : 0 ≤ a + xs.length) :
    pySliceAssign xs a (a + buf.length) buf =
      some (xs.take (a + xs.length).toNat ++ buf ++
        xs.drop ((a + xs.length).toNat + buf.length)) := by
  have h1 : sliceIndex xs.length a = (a + xs.length).toNat := sliceIndex_of_neg ha
  have h2 : sliceIndex xs.length (a + buf.length) =
      (a + (buf.length:ℤ) + xs.length).toNat := sliceIndex_of_neg hab
  have h3 : (a + (buf.length:ℤ) + xs.length).toNat =
      (a + xs.length).toNat + buf.length := by omega
  simp only [pySliceAssign, h1, h2, h3, Nat.add_sub_cancel_left]
  simp

/-- The capacity after any `write_data` call — successful or raising —
is the old capacity, doubled exactly once when `end_index` exceeded it. -/
theorem writeData_capacity_eq (r : ℕ) (st : AudioState) (buf : List ℚ) (t : ℚ) :
    (writeData r st buf t).1.capacity =
      if st.capacity < pyInt (t * r) + buf.length then 2 * st.capacity
      else st.capacity := by
  by_cases h : st.capacity < pyInt (t * r) + (buf.length : ℤ)
  · simp only [writeData, if_pos h]
    cases hassign : pySliceAssign (npResize st.data (2 * st.capacity).toNat)
        (pyInt (t * r)) (pyInt (t * r) + buf.length) buf <;>
      simp [hassign]
  · simp only [writeData, if_neg h]
    cases hassign : pySliceAssign st.data
        (pyInt (t * r)) (pyInt (t * r) + buf.length) buf <;>
      simp [hassign]

/-! Claim theorems. -/

/-- C8 (amended): an empty-chunk `write_data` with `start_time ≥ 0` whose
`start_index` does not exceed the capacity leaves the buffer completely
unchanged — same capacity, same samples — and raises nothing.  (The
original claim, a no-op for EVERY `start_time ≥ 0`, fails: when
`start_index > capacity` even an empty write doubles the capacity and
resizes the storage; see the counterexample.) -/
theorem writeData_empty_noop (r : ℕ) (st : AudioState) (t : ℚ)
    (_ht : 0 ≤ t) (hle : pyInt (t * r) ≤ st.capacity) :
    writeData r st [] t = (st, false) := by
  have hnores : ¬ st.capacity < pyInt (t * r) := not_lt.mpr hle
  simp only [writeData, List.length_nil, Nat.cast_zero, add_zero, hnores,
    if_false, pySliceAssign, Nat.sub_self, Nat.add_zero]
  simp [List.take_append_drop]

/-- C8 witness: the no-op theorem applied at `sample_rate = 10`,
a ten-sample zero buffer, and `start_time = 1/2`. -/
theorem writeData_empty_noop_witness :
    (0:ℚ) ≤ 1/2 ∧
    writeData 10 ⟨10, List.replicate 10 0⟩ [] (1/2) =
      (⟨10, List.replicate 10 0⟩, false) :=
  ⟨by norm_num,
   writeData_empty_noop 10 ⟨10, List.replicate 10 0⟩ (1/2) (by norm_num)
     (by norm_num [pyInt])⟩

/-- C8 counterexample: an empty-chunk write at `start_time = 2` s on a
ten-sample buffer at 10 Hz has `start_index = end_index = 20 > 10`, so
the code doubles the capacity to 20 and resizes the storage — the buffer
is NOT left unchanged. -/
theorem empty_write_beyond_capacity_grows :
    (writeData 10 ⟨10, List.replicate 10 0⟩ [] 2).1.capacity = 20 ∧
    (writeData 10 ⟨10, List.replicate 10 0⟩ [] 2).1 ≠ ⟨10, List.replicate 10 0⟩ := by
  have h : writeData 10 ⟨10, List.replicate 10 0⟩ [] 2 =
      (⟨20, List.replicate 20 0⟩, false) := by
    norm_num [writeData, pyInt, pySliceAssign, sliceIndex, npResize]
    decide
  rw [h]
  decide

/-- C10 (amended): `write_data` never decreases a nonnegative capacity —
it either preserves it or doubles it.  (The original claim, that EVERY
operation is capacity-monotone, fails for `load_data`, which replaces the
capacity with the decoded length wholesale; see the counterexample.) -/
theorem writeData_capacity_monotone (r : ℕ) (st : AudioState) (buf : List ℚ)
    (t : ℚ) (hcap : 0 ≤ st.capacity) :
    st.capacity ≤ (writeData r st buf t).1.capacity := by
  rw [writeData_capacity_eq]
  split_ifs <;> omega

/-- C10 witness: capacity monotonicity of `write_data` at a concrete
call that doubles the capacity. -/
theorem writeData_capacity_monotone_witness :
    (0:ℤ) ≤ (1:ℤ) ∧ (1:ℤ) ≤ (writeData 1 ⟨1, [0]⟩ [1, 2] 1).1.capacity :=
  ⟨by decide, writeData_capacity_monotone 1 ⟨1, [0]⟩ [1, 2] 1 (by decide)⟩

/-- C10 counterexample: `load_data` with three decoded samples on a
buffer of capacity 10 lowers the capacity to 3 — capacity is not
monotonically non-decreasing over the buffer's lifetime. -/
theorem loadData_shrinks_capacity :
    (loadData ⟨10, List.replicate 10 0⟩ [1, 2, 3]).capacity = 3 ∧
    (loadData ⟨10, List.replicate 10 0⟩ [1, 2, 3]).capacity < 10 := by
  constructor <;> decide

/-- C7: for `0 ≤ start_time ≤ end_time`, `read_data` computes
`floor(time * sample_rate)` for both endpoints, clamps both into
`[0, capacity]`, and returns exactly the in-bounds portion
`samples[start_index:end_index]`: the result is the clamped slice, its
length and cells are those of the clamped range, and it is empty whenever
`end_index ≤ start_index` (in particular for `read_data(t, t)`).  The
model is a total function, mirroring that numpy slicing never raises or
touches out-of-bounds memory. -/
theorem readData_clamped_spec (r : ℕ) (st : AudioState) (s e : ℚ)
    (hinv : st.data.length = st.capacity.toNat)
    (hs : 0 ≤ s) (hse : s ≤ e) :
    readData r st s e =
      (st.data.take (min (⌊e * r⌋).toNat st.capacity.toNat)).drop
        (min (⌊s * r⌋).toNat st.capacity.toNat) ∧
    (readData r st s e).length =
      min (⌊e * r⌋).toNat st.capacity.toNat -
        min (⌊s * r⌋).toNat st.capacity.toNat ∧
    (∀ i : ℕ, i < (readData r st s e).length →
      (readData r st s e).getD i 0 =
        st.data.getD (min (⌊s * r⌋).toNat st.capacity.toNat + i) 0) ∧
    (⌊e * r⌋ ≤ ⌊s * r⌋ → readData r st s e = []) := by
  have he : 0 ≤ e := le_trans hs hse
  have hsr : 0 ≤ s * r := mul_nonneg hs (Nat.cast_nonneg r)
  have her : 0 ≤ e * r := mul_nonneg he (Nat.cast_nonneg r)
  have hread : readData r st s e =
      (st.data.take (min (⌊e * r⌋).toNat st.capacity.toNat)).drop
        (min (⌊s * r⌋).toNat st.capacity.toNat) := by
    simp only [readData, pySlice, pyInt_of_nonneg hsr, pyInt_of_nonneg her,
      sliceIndex_of_nonneg (Int.floor_nonneg.mpr hsr),
      sliceIndex_of_nonneg (Int.floor_nonneg.mpr her), hinv]
  refine ⟨hread, ?_, ?_, ?_⟩
  · rw [hread, List.length_drop, List.length_take, hinv]
    omega
  · intro i hi
    rw [hread] at hi ⊢
    rw [List.length_drop, List.length_take, hinv] at hi
    rw [List.getD_eq_getElem?_getD, List.getD_eq_getElem?_getD,
      List.getElem?_drop, List.getElem?_take, if_pos (by omega)]
  · intro hle
    rw [hread]
    apply List.drop_eq_nil_of_le
    rw [List.length_take, hinv]
    have : (⌊e * r⌋).toNat ≤ (⌊s * r⌋).toNat := by omega
    omega

/-- C7 witness: the clamping theorem applied to an overrun read
`read_data(0, 3)` on a two-sample buffer at 1 Hz, which returns the whole
in-bounds content `[5, 7]`. -/
theorem readData_clamped_spec_witness :
    (0:ℚ) ≤ 0 ∧ (0:ℚ) ≤ 3 ∧ readData 1 ⟨2, [5, 7]⟩ 0 3 = [5, 7] := by
  refine ⟨le_refl 0, by norm_num, ?_⟩
  have h := (readData_clamped_spec 1 ⟨2, [5, 7]⟩ 0 3 (by decide)
    (le_refl 0) (by norm_num)).1
  rw [h]
  norm_num

/-- C5: the construction path with no MIDI file and no audio file — the
path the spec says defaults to 60 seconds of zero samples — sets
`capacity = 60 * SAMPLE_RATE` (here at the app's 44100 Hz) but never
assigns `self.data`, so no sample storage of length `capacity` exists
(`samples.length == capacity` fails; any later `write_data`/`read_data`
hits `AttributeError`).  This evaluates the code at the failing input of
the code_bug. -/
theorem audioDataInit_default_missing_storage :
    (audioDataInit 44100 none none).capacity = 60 * 44100 ∧
    (audioDataInit 44100 none none).data = none :=
  ⟨rfl, rfl⟩

/-- Reading `[start_time, start_time + len(buf)/sample_rate)` from a
state whose data is `buf` spliced in at `start_index` returns exactly
`buf`: the read's floor indices land exactly on the spliced range. -/
theorem readData_of_spliced (r : ℕ) (c : ℤ) (D buf : List ℚ) (t : ℚ)
    (hr : 0 < r) (ht : 0 ≤ t)
    (hfit : (pyInt (t * r)).toNat + buf.length ≤ D.length) :
    readData r ⟨c, D.take (pyInt (t * r)).toNat ++ buf ++
        D.drop ((pyInt (t * r)).toNat + buf.length)⟩ t
      (t + buf.length / r) = buf := by
  have hrq : ((r : ℚ)) ≠ 0 := Nat.cast_ne_zero.mpr hr.ne'
  have htr : 0 ≤ t * r := mul_nonneg ht (Nat.cast_nonneg r)
  have hs0 : 0 ≤ pyInt (t * r) := pyInt_nonneg htr
  have key : (t + (buf.length : ℚ) / r) * r = t * r + buf.length := by
    field_simp
  have hb : pyInt ((t + (buf.length : ℚ) / r) * r) =
      pyInt (t * r) + buf.length := by
    rw [key, pyInt_of_nonneg (by positivity), pyInt_of_nonneg htr,
      Int.floor_add_nat]
  have hlen : (D.take (pyInt (t * r)).toNat ++ buf ++
      D.drop ((pyInt (t * r)).toNat + buf.length)).length = D.length :=
    sliceWrite_length D buf (pyInt (t * r)).toNat hfit
  have htn : (pyInt (t * r) + (buf.length : ℤ)).toNat =
      (pyInt (t * r)).toNat + buf.length := by omega
  simp only [readData, pySlice, hb, hlen]
  rw [sliceIndex_of_nonneg_le hs0 (by omega),
    sliceIndex_of_nonneg_le (by positivity) (by omega), htn]
  exact sliceWrite_extract D buf (pyInt (t * r)).toNat hfit

/-- C4 (amended): the read/write round trip holds for every non-empty
chunk, `start_time ≥ 0` and positive sample rate PROVIDED
`end_index ≤ 2 * capacity` — i.e. whenever the single capacity doubling
actually covers the write, which is exactly when the write succeeds.
Writing `buf` at `start_time` and reading
`[start_time, start_time + len(buf)/sample_rate)` then returns `buf`
exactly, and the write raises nothing.  (The original unconditional
claim fails when a single write needs more than one doubling; see the
counterexample.) -/
theorem writeData_readData_roundtrip (r : ℕ) (st : AudioState) (buf : List ℚ)
    (t : ℚ) (hr : 0 < r)
    (hinv : st.data.length = st.capacity.toNat)
    (ht : 0 ≤ t) (_hne : buf ≠ [])
    (hfit : pyInt (t * r) + buf.length ≤ 2 * st.capacity) :
    readData r (writeData r st buf t).1 t (t + buf.length / r) = buf ∧
    (writeData r st buf t).2 = false := by
  have htr : 0 ≤ t * r := mul_nonneg ht (Nat.cast_nonneg r)
  have hs0 : 0 ≤ pyInt (t * r) := pyInt_nonneg htr
  by_cases h : st.capacity < pyInt (t * r) + buf.length
  · rw [writeData_resize r st buf t hs0 h hfit]
    refine ⟨?_, rfl⟩
    exact readData_of_spliced r (2 * st.capacity)
      (npResize st.data (2 * st.capacity).toNat) buf t hr ht
      (by rw [npResize_length]; omega)
  · rw [writeData_no_resize r st buf t hinv hs0 (not_lt.mp h)]
    refine ⟨?_, rfl⟩
    exact readData_of_spliced r st.capacity st.data buf t hr ht
      (by rw [hinv]; omega)

/-- C4 witness: the round trip at `sample_rate = 1` on a two-sample
buffer `[5, 0]`: writing `[1, 2]` at `start_time = 1` doubles the
capacity to 4 (`end_index = 3 > 2`) and reading `[1, 1 + 2/1)` returns
`[1, 2]` bit-exactly. -/
theorem writeData_readData_roundtrip_witness :
    (0:ℚ) ≤ 1 ∧ ([(1:ℚ), 2]) ≠ [] ∧
    readData 1 (writeData 1 ⟨2, [5, 0]⟩ [1, 2] 1).1 1
      (1 + (([(1:ℚ), 2]).length : ℚ) / ((1:ℕ) : ℚ)) = [1, 2] :=
  ⟨by norm_num, by decide,
   (writeData_readData_roundtrip 1 ⟨2, [5, 0]⟩ [1, 2] 1 (by decide) (by decide)
     (by norm_num) (by decide) (by norm_num [pyInt])).1⟩

/-- C4 counterexample: with capacity 1 and the chunk `[1, 2, 3]` at
`start_time = 0` (1 Hz), `end_index = 3` needs more than one doubling;
the code doubles to 2, the numpy assignment raises `ValueError`, and the
subsequent read returns `[0, 0]`, not the chunk — the unconditional
round-trip claim is false. -/
theorem roundtrip_fails_on_large_write :
    readData 1 (writeData 1 ⟨1, [0]⟩ [1, 2, 3] 0).1 0
      (0 + (([(1:ℚ), 2, 3]).length : ℚ) / ((1:ℕ) : ℚ)) ≠ [1, 2, 3] := by
  have h : writeData 1 ⟨1, [0]⟩ [1, 2, 3] 0 = (⟨2, [0, 0]⟩, true) := by
    norm_num [writeData, pyInt, pySliceAssign, sliceIndex, npResize,
      List.range_succ]
    decide
  rw [h]
  have h2 : readData 1 ⟨2, [0, 0]⟩ 0
      (0 + (([(1:ℚ), 2, 3]).length : ℚ) / ((1:ℕ) : ℚ)) = [0, 0] := by
    norm_num [readData, pyInt, pySlice, sliceIndex]
  rw [h2]
  decide

/-- C2 (amended): on a growing write covered by the single doubling
(with nonnegative start index), the storage is resized before the chunk
is copied in and every sample value present before the resize is
preserved at its index outside the newly written range; but a newly
added tail position outside the newly written range holds the pre-resize
value at index `i mod old_length` — `np.resize` tiles the old content
cyclically — and is `0.0` only when that old value was `0.0`.  (The
original claim that the tail is zero-filled fails; see the
counterexample.) -/
theorem writeData_growth_preserves_and_tiles (r : ℕ) (st : AudioState)
    (buf : List ℚ) (t : ℚ)
    (hinv : st.data.length = st.capacity.toNat)
    (hs : 0 ≤ pyInt (t * r))
    (hgrow : st.capacity < pyInt (t * r) + buf.length)
    (hfit : pyInt (t * r) + buf.length ≤ 2 * st.capacity) :
    (writeData r st buf t).2 = false ∧
    (writeData r st buf t).1.capacity = 2 * st.capacity ∧
    (writeData r st buf t).1.data.length = (2 * st.capacity).toNat ∧
    (∀ i : ℕ, i < st.data.length →
      (i < (pyInt (t * r)).toNat ∨ (pyInt (t * r)).toNat + buf.length ≤ i) →
      (writeData r st buf t).1.data.getD i 0 = st.data.getD i 0) ∧
    (∀ i : ℕ, st.data.length ≤ i → i < (2 * st.capacity).toNat →
      (i < (pyInt (t * r)).toNat ∨ (pyInt (t * r)).toNat + buf.length ≤ i) →
      (writeData r st buf t).1.data.getD i 0 =
        st.data.getD (i % st.data.length) 0) := by
  have hcap : 0 < st.capacity := by omega
  have hlen0 : st.data.length ≠ 0 := by omega
  have hw := writeData_resize r st buf t hs hgrow hfit
  rw [hw]
  have hd1len : (npResize st.data (2 * st.capacity).toNat).length =
      (2 * st.capacity).toNat := npResize_length _ _
  have hfit' : (pyInt (t * r)).toNat + buf.length ≤
      (npResize st.data (2 * st.capacity).toNat).length := by
    rw [hd1len]; omega
  refine ⟨rfl, rfl, ?_, ?_, ?_⟩
  · rw [show ((⟨2 * st.capacity,
        (npResize st.data (2 * st.capacity).toNat).take (pyInt (t * r)).toNat ++
          buf ++ (npResize st.data (2 * st.capacity).toNat).drop
            ((pyInt (t * r)).toNat + buf.length)⟩ : AudioState), false).1.data
        = (npResize st.data (2 * st.capacity).toNat).take (pyInt (t * r)).toNat ++
          buf ++ (npResize st.data (2 * st.capacity).toNat).drop
            ((pyInt (t * r)).toNat + buf.length) from rfl,
      sliceWrite_length _ buf _ hfit', hd1len]
  · intro i hi hout
    rw [show ((⟨2 * st.capacity,
        (npResize st.data (2 * st.capacity).toNat).take (pyInt (t * r)).toNat ++
          buf ++ (npResize st.data (2 * st.capacity).toNat).drop
            ((pyInt (t * r)).toNat + buf.length)⟩ : AudioState), false).1.data
        = (npResize st.data (2 * st.capacity).toNat).take (pyInt (t * r)).toNat ++
          buf ++ (npResize st.data (2 * st.capacity).toNat).drop
            ((pyInt (t * r)).toNat + buf.length) from rfl,
      sliceWrite_getD_outside _ buf _ i hfit' hout]
    exact npResize_getD_of_lt st.data _ i hi (by omega)
  · intro i hige hilt hout
    rw [show ((⟨2 * st.capacity,
        (npResize st.data (2 * st.capacity).toNat).take (pyInt (t * r)).toNat ++
          buf ++ (npResize st.data (2 * st.capacity).toNat).drop
            ((pyInt (t * r)).toNat + buf.length)⟩ : AudioState), false).1.data
        = (npResize st.data (2 * st.capacity).toNat).take (pyInt (t * r)).toNat ++
          buf ++ (npResize st.data (2 * st.capacity).toNat).drop
            ((pyInt (t * r)).toNat + buf.length) from rfl,
      sliceWrite_getD_outside _ buf _ i hfit' hout]
    exact npResize_getD st.data _ i hlen0 (by omega)

/-- C2 witness: the growth theorem applied at 1 Hz to the buffer
`[5, 0]` with chunk `[7]` written at `start_time = 3` — the tail cell at
index 2 (outside the written range `[3, 4)`) holds the tiled old value
`[5, 0][2 mod 2] = 5`, not `0.0`. -/
theorem writeData_growth_preserves_and_tiles_witness :
    (0:ℤ) ≤ pyInt ((3:ℚ) * ((1:ℕ) : ℚ)) ∧
    (writeData 1 ⟨2, [5, 0]⟩ [7] 3).1.data.getD 2 0 =
      ([(5:ℚ), 0]).getD (2 % ([(5:ℚ), 0]).length) 0 := by
  have hs : (0:ℤ) ≤ pyInt ((3:ℚ) * ((1:ℕ) : ℚ)) := by norm_num [pyInt]
  refine ⟨hs, ?_⟩
  exact (writeData_growth_preserves_and_tiles 1 ⟨2, [5, 0]⟩ [7] 3 (by decide)
      hs (by norm_num [pyInt]) (by norm_num [pyInt])).2.2.2.2 2
    (by decide) (by decide) (Or.inl (by norm_num [pyInt]))

/-- C2 counterexample: growing `⟨2, [5, 0]⟩` by writing `[7]` at
`start_time = 3` (1 Hz) yields data `[5, 0, 5, 7]`: the newly added tail
position 2, outside the newly written range `[3, 4)`, holds `5.0`, not
`0.0` — `np.resize` repeats the old content instead of zero-filling. -/
theorem writeData_growth_tail_not_zero :
    writeData 1 ⟨2, [5, 0]⟩ [7] 3 = (⟨4, [5, 0, 5, 7]⟩, false) ∧
    (writeData 1 ⟨2, [5, 0]⟩ [7] 3).1.data.getD 2 0 ≠ 0 := by
  have h : writeData 1 ⟨2, [5, 0]⟩ [7] 3 = (⟨4, [5, 0, 5, 7]⟩, false) := by
    norm_num [writeData, pyInt, pySliceAssign, sliceIndex, npResize,
      List.range_succ]
    decide
  exact ⟨h, by rw [h]; decide⟩

/-- C6 (amended): `write_data` performs no validation of
`start_time < 0` at all.  With a negative start index that wraps to an
in-range position and a chunk ending before the array's end, the call
raises nothing and silently writes the chunk at the wrapped position
`start_index + capacity`, modifying the buffer — there is no
`NegativeStartTime` failure and the state is not left unchanged.  (See
the counterexample for a concrete refutation of the original claim.) -/
theorem writeData_negative_start_wraps (r : ℕ) (st : AudioState)
    (buf : List ℚ) (t : ℚ)
    (hinv : st.data.length = st.capacity.toNat)
    (hcap : 0 ≤ st.capacity)
    (_ht : t < 0)
    (hs : pyInt (t * r) < 0)
    (hlo : 0 ≤ pyInt (t * r) + st.capacity)
    (hhi : pyInt (t * r) + buf.length < 0) :
    (writeData r st buf t).2 = false ∧
    (writeData r st buf t).1.capacity = st.capacity ∧
    (writeData r st buf t).1.data =
      st.data.take (pyInt (t * r) + st.capacity).toNat ++ buf ++
        st.data.drop ((pyInt (t * r) + st.capacity).toNat + buf.length) := by
  have hlen : (st.data.length : ℤ) = st.capacity := by
    rw [hinv]; exact Int.toNat_of_nonneg hcap
  have hnores : ¬ st.capacity < pyInt (t * r) + (buf.length : ℤ) := by omega
  have hassign := pySliceAssign_neg st.data buf (pyInt (t * r)) hs hhi (by omega)
  simp only [writeData, hnores, if_false, hassign]
  refine ⟨trivial, trivial, ?_⟩
  rw [hlen]

/-- C6 witness: the wrap theorem applied at 10 Hz to a ten-sample zero
buffer with chunk `[7]` at `start_time = -1/2`: the call raises
nothing. -/
theorem writeData_negative_start_wraps_witness :
    (-1/2 : ℚ) < 0 ∧
    (writeData 10 ⟨10, List.replicate 10 0⟩ [7] (-1/2)).2 = false :=
  ⟨by norm_num,
   (writeData_negative_start_wraps 10 ⟨10, List.replicate 10 0⟩ [7] (-1/2)
     (by decide) (by decide) (by norm_num)
     (by norm_num [pyInt, Int.ceil_neg])
     (by norm_num [pyInt, Int.ceil_neg])
     (by norm_num [pyInt, Int.ceil_neg])).1⟩

/-- C6 counterexample: `write_data([7.0], start_time=-0.5)` at 10 Hz on
a ten-sample zero buffer does NOT fail — no error is raised — and the
buffer is silently modified: the sample lands at wrapped index 5
(`-5 + 10`).  The code never raises `NegativeStartTime` and does not
leave the state unchanged. -/
theorem negative_time_write_not_rejected :
    (writeData 10 ⟨10, List.replicate 10 0⟩ [7] (-1/2)).2 = false ∧
    (writeData 10 ⟨10, List.replicate 10 0⟩ [7] (-1/2)).1.data ≠
      List.replicate 10 0 := by
  have h : writeData 10 ⟨10, List.replicate 10 0⟩ [7] (-1/2) =
      (⟨10, [0, 0, 0, 0, 0, 7, 0, 0, 0, 0]⟩, false) := by
    norm_num [writeData, pyInt, pySliceAssign, sliceIndex, npResize,
      Int.ceil_neg]
    decide
  rw [h]
  exact ⟨rfl, by decide⟩

/-- C9 (amended): `read_data` returns a numpy basic-slice VIEW, not a
copy: after any subsequent successful non-resizing write, observing a
previously returned view yields the slice of the CURRENT (post-write)
backing storage — the returned sequence is a live alias that tracks
later writes.  (A resizing write rebinds `self.data` to a fresh array,
decoupling older views.)  See the counterexample for a concrete
previously-returned sequence changed by a later write. -/
theorem readData_view_alias (r : ℕ) (h : HeapState) (s e t : ℚ)
    (buf : List ℚ)
    (hnores : ¬ h.capacity < pyInt (t * r) + (buf.length : ℤ))
    (hsucc : (writeDataHeap r h buf t).2 = false) :
    observeView (writeDataHeap r h buf t).1 (readDataView r h s e) =
      (((writeDataHeap r h buf t).1.data).take (readDataView r h s e).hi).drop
        (readDataView r h s e).lo := by
  cases hassign : pySliceAssign h.data (pyInt (t * r))
      (pyInt (t * r) + buf.length) buf with
  | none =>
      exfalso
      simp only [writeDataHeap, hnores, if_false, hassign] at hsucc
      exact Bool.true_eq_false ▸ hsucc
  | some d =>
      simp only [HeapState.data, List.getD_eq_getElem?_getD] at hassign
      simp [writeDataHeap, hnores, hassign, observeView, readDataView,
        HeapState.data]

/-- C9 witness: the alias theorem at a concrete non-resizing write
`[9, 9]` at time 0 over a four-sample zero buffer (1 Hz), with a view of
the whole range taken beforehand. -/
theorem readData_view_alias_witness :
    (writeDataHeap 1 ⟨[[0, 0, 0, 0]], 0, 4⟩ [9, 9] 0).2 = false ∧
    observeView (writeDataHeap 1 ⟨[[0, 0, 0, 0]], 0, 4⟩ [9, 9] 0).1
        (readDataView 1 ⟨[[0, 0, 0, 0]], 0, 4⟩ 0 4) =
      (((writeDataHeap 1 ⟨[[0, 0, 0, 0]], 0, 4⟩ [9, 9] 0).1.data).take
          (readDataView 1 ⟨[[0, 0, 0, 0]], 0, 4⟩ 0 4).hi).drop
        (readDataView 1 ⟨[[0, 0, 0, 0]], 0, 4⟩ 0 4).lo := by
  have hnores : ¬ ((⟨[[0, 0, 0, 0]], 0, 4⟩ : HeapState).capacity <
      pyInt ((0:ℚ) * ((1:ℕ) : ℚ)) + (([(9:ℚ), 9]).length : ℤ)) := by
    norm_num [pyInt]
  have hsucc : (writeDataHeap 1 ⟨[[0, 0, 0, 0]], 0, 4⟩ [9, 9] 0).2 = false := by
    norm_num [writeDataHeap, pyInt, pySliceAssign, sliceIndex, HeapState.data]
    decide
  exact ⟨hsucc,
    readData_view_alias 1 ⟨[[0, 0, 0, 0]], 0, 4⟩ 0 4 0 [9, 9] hnores hsucc⟩

/-- C9 counterexample: on a four-sample zero buffer (1 Hz), the sequence
returned by `read_data(0, 4)` is `[0, 0, 0, 0]`; after the buffer is
subsequently written with `[9, 9]` at time 0, that SAME previously
returned sequence reads `[9, 9, 0, 0]` — a later write changed a
previously returned result, so `read_data` does not return an
independent copy. -/
theorem readData_view_mutates :
    observeView (⟨[[0, 0, 0, 0]], 0, 4⟩ : HeapState)
        (readDataView 1 ⟨[[0, 0, 0, 0]], 0, 4⟩ 0 4) = [0, 0, 0, 0] ∧
    observeView (writeDataHeap 1 ⟨[[0, 0, 0, 0]], 0, 4⟩ [9, 9] 0).1
        (readDataView 1 ⟨[[0, 0, 0, 0]], 0, 4⟩ 0 4) = [9, 9, 0, 0] := by
  constructor
  · norm_num [observeView, readDataView, HeapState.data, pyInt, sliceIndex]
  · norm_num [writeDataHeap, observeView, readDataView, HeapState.data,
      pyInt, pySliceAssign, sliceIndex]
    decide

/-- C1: the code evaluated at the failing input of the code_bug: with
capacity 1 (1 Hz, data `[0.0]`) and chunk `[1, 2, 3]` at
`start_time = 0`, `end_index = 3 > 1` but the capacity is doubled only
ONCE, to 2, which is still less than `end_index` — the doubling is not
repeated until `end_index ≤ capacity` as the spec states, and the numpy
assignment then raises `ValueError` (`true`), leaving data `[0, 0]`. -/
theorem writeData_single_doubling_shortfall :
    writeData 1 ⟨1, [0]⟩ [1, 2, 3] 0 = (⟨2, [0, 0]⟩, true) ∧
    (writeData 1 ⟨1, [0]⟩ [1, 2, 3] 0).1.capacity <
      pyInt ((0:ℚ) * ((1:ℕ) : ℚ)) + (([(1:ℚ), 2, 3]).length : ℤ) := by
  have h : writeData 1 ⟨1, [0]⟩ [1, 2, 3] 0 = (⟨2, [0, 0]⟩, true) := by
    norm_num [writeData, pyInt, pySliceAssign, sliceIndex, npResize,
      List.range_succ]
    decide
  refine ⟨h, ?_⟩
  rw [h]
  norm_num [pyInt]

end ViolinCV
